import Mathlib

/-!
The poll / dedup / publish loop of `main.go` of nostrplaying.

A shallow embedding of `getCurrentlyPlaying` (one pass of its `for` loop) and of
`postNowPlaying`, with the pieces of the Go standard library they rest on
(`strings.Index`, slicing, `bufio.Scanner` with the default line splitter,
`fmt.Sprintf` with `%s`).

A Go string is a sequence of bytes; bytes are natural numbers here.
-/

set_option autoImplicit false

namespace Nostrplaying

/-! ## Go strings -/

/-- A Go string: a sequence of bytes. -/
abbrev GoString := List Nat

/-- The UTF-8 bytes of a string literal of the source. -/
def utf8 (s : String) : GoString :=
  s.toList.flatMap (fun c => (String.utf8EncodeChar c).map UInt8.toNat)

/-- The byte of the hyphen, the needle of line 161. -/
def hyphen : GoString := [45]

/-- The separator written by the format string of line 179. -/
def separator : GoString := [32, 45, 32]

/-- Go `strings.Index(s, substr)`: the index of the first instance of `substr`
in `s`, or `-1` if `substr` is not present in `s`. -/
def Index : GoString → GoString → Int
  | [], substr => if substr = [] then 0 else -1
  | b :: rest, substr =>
    if substr.isPrefixOf (b :: rest) then 0
    else
      let i := Index rest substr
      if i < 0 then -1 else i + 1

/-- Go `s[:hi]`: the first `hi` bytes, and a run-time panic (`none`) when `hi`
is negative or beyond the length. -/
def sliceTo (s : GoString) (hi : Int) : Option GoString :=
  if 0 ≤ hi ∧ hi ≤ (s.length : Int) then some (s.take hi.toNat) else none

/-- Line 161: `line[:strings.Index(line, "-")-1]`. -/
def trackNameOf (line : GoString) : Option GoString :=
  sliceTo line (Index line hyphen - 1)

/-! ## bufio.Scanner with ScanLines -/

/-- Go `bufio.MaxScanTokenSize`. -/
def MaxScanTokenSize : Nat := 64 * 1024

/-- Go `dropCR` of package bufio: drops one terminal carriage return. -/
def dropCR (data : GoString) : GoString :=
  if data.getLast? = some 13 then data.dropLast else data

/-- The segments of the data between line feeds (there is always one more
segment than there are line feeds). -/
def splitNL : GoString → List GoString
  | [] => [[]]
  | b :: rest =>
    if b = 10 then [] :: splitNL rest
    else
      match splitNL rest with
      | [] => [[b]]
      | seg :: segs => (b :: seg) :: segs

/-- The lines `bufio.ScanLines` cuts the data into, before the carriage return
is dropped: every segment that a line feed ends, and the last segment when it
is not empty. -/
def rawLines (data : GoString) : List GoString :=
  let segs := splitNL data
  if segs.getLast? = some [] then segs.dropLast else segs

/-- The tokens a `bufio.Scanner` with the default buffer delivers for these raw
lines, and whether it stopped with `ErrTooLong`: a line that does not fit in the
buffer of `MaxScanTokenSize` bytes together with its line feed ends the scan. -/
def scanTokens : List GoString → List GoString × Bool
  | [] => ([], false)
  | raw :: rest =>
    if MaxScanTokenSize ≤ raw.length then ([], true)
    else ((dropCR raw) :: (scanTokens rest).1, (scanTokens rest).2)

/-- Lines 158-164, the body of the scan loop over the delivered tokens;
`existingTracks` is the key set of the map. `none` is the slice panic. -/
def scanLoop : List GoString → List GoString → Option (List GoString)
  | [], existingTracks => some existingTracks
  | line :: rest, existingTracks =>
    if line.length > 0 then
      match trackNameOf line with
      | none => none
      | some trackName => scanLoop rest (existingTracks.insert trackName)
    else scanLoop rest existingTracks

/-- How lines 156-167 end. -/
inductive ScanResult where
  /-- the scan reached the end of the file; the key set of `existingTracks` -/
  | ok (existingTracks : List GoString)
  /-- slice bounds out of range at line 161 -/
  | panic
  /-- `scanner.Err()` is not nil: `log.Fatalf` at line 166 -/
  | readError
  deriving DecidableEq, Repr

/-- Lines 156-167 on a file with the given content. -/
def scanFile (data : GoString) : ScanResult :=
  let toks := scanTokens (rawLines data)
  match scanLoop toks.1 [] with
  | none => .panic
  | some existingTracks => if toks.2 then .readError else .ok existingTracks

/-! ## The data of the Spotify and nostr libraries the loop reads -/

/-- Package spotify, `SimpleArtist`: the field the loop reads. -/
structure SimpleArtist where
  Name : GoString
  deriving DecidableEq, Repr

/-- Package spotify, `SimpleTrack`: the fields the loop reads. `ExternalURLs` is
a `map[string]string`, here its key/value pairs. -/
structure SimpleTrack where
  Artists : List SimpleArtist
  ExternalURLs : List (GoString × GoString)
  Name : GoString
  deriving DecidableEq, Repr

/-- Package spotify, `FullTrack`, which embeds `SimpleTrack`. -/
structure FullTrack where
  SimpleTrack : SimpleTrack
  deriving DecidableEq, Repr

/-- The field `Name` that `FullTrack` gets from the embedded `SimpleTrack`
(`currentlyPlaying.Item.Name` at line 148). -/
def FullTrack.Name (t : FullTrack) : GoString := t.SimpleTrack.Name

/-- Package spotify, `CurrentlyPlaying`: `Item` is a pointer, `none` is nil. -/
structure CurrentlyPlaying where
  Item : Option FullTrack
  deriving DecidableEq, Repr

/-- Indexing a Go `map[string]string`: the value of the key, the empty string
when the key is absent. -/
def mapIndex (m : List (GoString × GoString)) (key : GoString) : GoString :=
  (m.lookup key).getD []

/-- Package nostr, `Event`: the fields `postNowPlaying` sets itself (`Sign` adds
the ID and the signature, which nothing here reads). -/
structure Event where
  PubKey : GoString
  CreatedAt : Nat
  Kind : Nat
  Tags : List (List GoString)
  Content : GoString
  deriving DecidableEq, Repr

/-- What a relay does when `postNowPlaying` reaches it. -/
inductive RelayOutcome where
  /-- `nostr.RelayConnect` returns an error -/
  | connectFails
  /-- the connection is made and `relay.Publish` returns an error -/
  | publishFails
  /-- the connection is made and `relay.Publish` returns a status -/
  | success
  deriving DecidableEq, Repr

/-- The calls `postNowPlaying` makes on the network. -/
inductive Action where
  /-- `nostr.RelayConnect(ctx, url)` -/
  | connect (url : GoString)
  /-- `relay.Publish(ctx, ev)` on the relay connected at `url` -/
  | publish (url : GoString) (ev : Event)
  deriving DecidableEq, Repr

/-- What `postNowPlaying` gets from outside: the public key of `nostrKey`, the
clock, and the behaviour of the relay at each address. -/
structure World where
  pub : GoString
  now : Nat
  relay : GoString → RelayOutcome

/-! ## postNowPlaying -/

/-- The slice literal of line 210. -/
def relayURLs : List GoString :=
  [utf8 "wss://relay.damus.io", utf8 "wss://nos.lol", utf8 "wss://nostr.wine",
   utf8 "wss://eden.nostr.land", utf8 "wss://relay.snort.social",
   utf8 "wss://blastr.f7z.xyz", utf8 "wss://relay.primal.net", utf8 "wss://relayable.org"]

/-- Lines 210-222: the loop over the relay addresses. -/
def publishLoop (w : World) (ev : Event) : List GoString → List Action
  | [] => []
  | url :: rest =>
    match w.relay url with
    | .connectFails => Action.connect url :: publishLoop w ev rest
    | .publishFails => Action.connect url :: Action.publish url ev :: publishLoop w ev rest
    | .success => Action.connect url :: Action.publish url ev :: publishLoop w ev rest

/-- Lines 196-202: the event built from the arguments. -/
def nowPlayingEvent (w : World) (name endpoint : GoString) : Event :=
  { PubKey := w.pub
    CreatedAt := w.now
    Kind := 30315
    Tags := [[utf8 "d", utf8 "music"], [utf8 "r", endpoint]]
    Content := name }

/-- Lines 192-223, `postNowPlaying(name, endpoint)`: the network calls it makes,
in order. -/
def postNowPlaying (w : World) (name endpoint : GoString) : List Action :=
  publishLoop w (nowPlayingEvent w name endpoint) relayURLs

/-- The addresses of the connection attempts of a trace, in order. -/
def connectAttempts : List Action → List GoString
  | [] => []
  | Action.connect url :: rest => url :: connectAttempts rest
  | Action.publish _ _ :: rest => connectAttempts rest

/-- The addresses of the publish attempts of a trace, in order. -/
def publishAttempts : List Action → List GoString
  | [] => []
  | Action.connect _ :: rest => publishAttempts rest
  | Action.publish url _ :: rest => url :: publishAttempts rest

/-! ## getCurrentlyPlaying -/

/-- Go `fmt` with the verb `%s` on a `[]string`: the elements separated by single
spaces (the brackets are added by `formatLine`). -/
def joinSpace : List GoString → GoString
  | [] => []
  | [a] => a
  | a :: b :: rest => a ++ 32 :: joinSpace (b :: rest)

/-- Line 179: `fmt.Sprintf("%s - %s\n", track.Name, artists)`. -/
def formatLine (name : GoString) (artists : List GoString) : GoString :=
  name ++ separator ++ [91] ++ joinSpace artists ++ [93] ++ [10]

/-- Lines 175-178: the names of the artists of the track. -/
def artistNames (track : SimpleTrack) : List GoString :=
  track.Artists.map (fun artist => artist.Name)

/-- A run-time panic of the loop. -/
inductive Panic where
  /-- slice bounds out of range, line 161 -/
  | sliceBounds
  /-- nil pointer dereference, line 169 -/
  | nilDereference
  deriving DecidableEq, Repr

/-- How one pass of the loop ends. -/
inductive Outcome where
  /-- the pass reaches the `time.Sleep` of line 188 -/
  | completed
  /-- the goroutine panics -/
  | panicked (p : Panic)
  /-- `log.Fatalf`: the process exits -/
  | fatal
  deriving DecidableEq, Repr

/-- The branch taken at lines 169-185. -/
inductive Decision where
  /-- line 169: the name is a key of `existingTracks` -/
  | alreadyLogged
  /-- line 171: `previousTrackName == currentTrackName` -/
  | sameAsPrevious
  /-- line 173: the `else` branch, which writes and publishes -/
  | announce
  deriving DecidableEq, Repr

/-- The conditions of lines 169 and 171. -/
def decision (existingTracks : List GoString) (name previousTrackName currentTrackName : GoString) :
    Decision :=
  if name ∈ existingTracks then .alreadyLogged
  else if previousTrackName = currentTrackName then .sameAsPrevious
  else .announce

/-- What one pass of the loop leaves behind. -/
structure PassResult where
  outcome : Outcome
  /-- the content of previouslyPlayed.txt afterwards -/
  file : GoString
  /-- the calls of `postNowPlaying`, as (name, endpoint) -/
  posts : List (GoString × GoString)
  /-- the network calls made -/
  net : List Action
  deriving DecidableEq, Repr

/-- Lines 145-149: the value of `currentTrackName`. -/
def currentTrackNameOf (currentlyPlaying : Option CurrentlyPlaying) : GoString :=
  match currentlyPlaying with
  | none => []
  | some cp =>
    match cp.Item with
    | none => []
    | some item => item.Name

/-- One pass of the loop of `getCurrentlyPlaying` (lines 145-185), after
`PlayerCurrentlyPlaying` returned the pointer `currentlyPlaying` without an
error and the file, of content `file`, was opened. The file is read from its
start to its end, so the write of line 180 lands after the content. -/
def getCurrentlyPlayingPass (w : World) (currentlyPlaying : Option CurrentlyPlaying)
    (file : GoString) : PassResult :=
  let currentTrackName := currentTrackNameOf currentlyPlaying
  let previousTrackName : GoString := []
  match scanFile file with
  | .panic => ⟨.panicked .sliceBounds, file, [], []⟩
  | .readError => ⟨.fatal, file, [], []⟩
  | .ok existingTracks =>
    match currentlyPlaying.bind (fun cp => cp.Item) with
    | none => ⟨.panicked .nilDereference, file, [], []⟩
    | some item =>
      match decision existingTracks item.SimpleTrack.Name previousTrackName currentTrackName with
      | .alreadyLogged => ⟨.completed, file, [], []⟩
      | .sameAsPrevious => ⟨.completed, file, [], []⟩
      | .announce =>
        let track := item.SimpleTrack
        let line := formatLine track.Name (artistNames track)
        let endpoint := mapIndex item.SimpleTrack.ExternalURLs (utf8 "spotify")
        ⟨.completed, file ++ line, [(line, endpoint)], postNowPlaying w line endpoint⟩

/-- The loop of `getCurrentlyPlaying` over the successive answers of
`PlayerCurrentlyPlaying`, each pass with the world it runs in (its own clock
value and relay behaviour): it goes on while the passes complete. -/
def getCurrentlyPlaying : List (World × Option CurrentlyPlaying) → GoString → List PassResult
  | [], _ => []
  | (w, cp) :: rest, file =>
    let r := getCurrentlyPlayingPass w cp file
    match r.outcome with
    | .completed => r :: getCurrentlyPlaying rest r.file
    | _ => [r]

/-- A currently-playing answer that carries a track. -/
def playing (name : GoString) (artists : List GoString) (urls : List (GoString × GoString)) :
    Option CurrentlyPlaying :=
  some ⟨some ⟨⟨artists.map SimpleArtist.mk, urls, name⟩⟩⟩

/-- A world in which every relay accepts the connection and the event. -/
def allRelaysUp : World := ⟨[], 0, fun _ => .success⟩

/-! ## The words of the specification -/

/-- The substring of a line before the first occurrence of the literal " - ",
for a line that contains it (the track name of a line, as the specification
words it). -/
def nameBeforeSeparator (line : GoString) : Option GoString :=
  if 0 ≤ Index line separator then some (line.take (Index line separator).toNat) else none

/-- The file is empty or ends with a line feed: every line of it is ended. -/
def NewlineTerminated (file : GoString) : Prop :=
  file = [] ∨ file.getLast? = some 10

/-- The track names on the lines of the log, as the specification words them:
for each line of the file, the substring before its first " - ", when the line
holds one. -/
def namesOnLines (file : GoString) : List GoString :=
  (rawLines file).filterMap nameBeforeSeparator

/-- The keys that line 161 computes for the delivered lines, one for each line
that is not empty and whose slice does not fault, in the order of the file. -/
def lineNames : List GoString → List GoString
  | [] => []
  | line :: rest =>
    if line.length > 0 then
      match trackNameOf line with
      | none => lineNames rest
      | some trackName => trackName :: lineNames rest
    else lineNames rest

/-- The keys that the scan of lines 158-164 computes on the file, with their
repetitions. -/
def scannedKeys (file : GoString) : List GoString :=
  lineNames (scanTokens (rawLines file)).1

/-- The line of line 179 without its line feed. -/
def lineBody (name : GoString) (artists : List GoString) : GoString :=
  name ++ separator ++ ([91] ++ joinSpace artists ++ [93])

/-- A pass that skipped: it completed, the file is as it was, nothing was
published. -/
def PassResult.skipped (r : PassResult) (file : GoString) : Prop :=
  r.outcome = .completed ∧ r.file = file ∧ r.posts = [] ∧ r.net = []

/-! ## Lemmas on the publisher -/

theorem connectAttempts_publishLoop (w : World) (ev : Event) (urls : List GoString) :
    connectAttempts (publishLoop w ev urls) = urls := by
  induction urls with
  | nil => rfl
  | cons url rest ih =>
    cases h : w.relay url <;> simp [publishLoop, h, connectAttempts, ih]

theorem publishAttempts_publishLoop (w : World) (ev : Event) (urls : List GoString) :
    publishAttempts (publishLoop w ev urls)
      = urls.filter (fun url => decide (w.relay url ≠ .connectFails)) := by
  induction urls with
  | nil => rfl
  | cons url rest ih =>
    cases h : w.relay url <;> simp [publishLoop, h, publishAttempts, ih]

theorem publishLoop_eq_flatMap (w : World) (ev : Event) (urls : List GoString) :
    publishLoop w ev urls
      = urls.flatMap (fun url =>
          if w.relay url = .connectFails then [Action.connect url]
          else [Action.connect url, Action.publish url ev]) := by
  induction urls with
  | nil => rfl
  | cons url rest ih =>
    cases h : w.relay url <;> simp [publishLoop, h, ih]

theorem publish_mem_publishLoop (w : World) (ev : Event) (urls : List GoString)
    (url : GoString) (ev' : Event) (h : Action.publish url ev' ∈ publishLoop w ev urls) :
    ev' = ev := by
  induction urls with
  | nil => simp [publishLoop] at h
  | cons u rest ih =>
    cases hu : w.relay u <;> simp [publishLoop, hu] at h
    · exact ih h
    · rcases h with h | h
      · exact h.2
      · exact ih h
    · rcases h with h | h
      · exact h.2
      · exact ih h

/-! ## Lemmas on the line parse -/

theorem Index_hyphen_nil : Index [] hyphen = -1 := by
  simp [Index, hyphen]

theorem Index_hyphen_cons (b : Nat) (rest : GoString) :
    Index (b :: rest) hyphen
      = if b = 45 then 0 else if Index rest hyphen < 0 then -1 else Index rest hyphen + 1 := by
  by_cases hb : b = 45
  · subst hb
    simp [Index, hyphen, List.isPrefixOf]
  · have hb' : ¬ (45 = b) := fun h => hb h.symm
    simp [Index, hyphen, List.isPrefixOf, hb, hb']

theorem Index_hyphen_of_not_mem (s : GoString) (h : 45 ∉ s) : Index s hyphen = -1 := by
  induction s with
  | nil => exact Index_hyphen_nil
  | cons b rest ih =>
    have hb : b ≠ 45 := fun e => h (by simp [e])
    have hr : 45 ∉ rest := fun e => h (List.mem_cons_of_mem _ e)
    rw [Index_hyphen_cons, if_neg hb, ih hr]
    simp

theorem Index_hyphen_append (a rest : GoString) (h : 45 ∉ a) :
    Index (a ++ 45 :: rest) hyphen = a.length := by
  induction a with
  | nil => simp [Index_hyphen_cons]
  | cons b a ih =>
    have hb : b ≠ 45 := fun e => h (by simp [e])
    have hr : 45 ∉ a := fun e => h (List.mem_cons_of_mem _ e)
    have hlt : ¬ ((a.length : Int) < 0) := by omega
    rw [List.cons_append, Index_hyphen_cons, if_neg hb, ih hr, if_neg hlt]
    simp

theorem trackNameOf_of_not_mem (line : GoString) (h : 45 ∉ line) : trackNameOf line = none := by
  simp [trackNameOf, sliceTo, Index_hyphen_of_not_mem line h]

theorem trackNameOf_formatted (name rest : GoString) (h : 45 ∉ name) :
    trackNameOf (name ++ separator ++ rest) = some name := by
  have e : name ++ separator ++ rest = (name ++ [32]) ++ 45 :: (32 :: rest) := by
    simp [separator]
  have h' : 45 ∉ name ++ [32] := by simp [h]
  rw [trackNameOf, e, Index_hyphen_append _ _ h']
  simp [sliceTo]
  omega

/-! ## Lemmas on the scanner -/

theorem splitNL_ne_nil (data : GoString) : splitNL data ≠ [] := by
  induction data with
  | nil => simp [splitNL]
  | cons b rest ih =>
    by_cases hb : b = 10
    · simp [splitNL, hb]
    · cases h : splitNL rest with
      | nil => exact absurd h ih
      | cons seg segs => simp [splitNL, hb, h]

theorem splitNL_of_not_mem (data : GoString) (h : 10 ∉ data) : splitNL data = [data] := by
  induction data with
  | nil => rfl
  | cons b rest ih =>
    have hb : b ≠ 10 := fun e => h (by simp [e])
    have hr : 10 ∉ rest := fun e => h (List.mem_cons_of_mem _ e)
    simp [splitNL, hb, ih hr]

theorem splitNL_append_lf (xs ys : GoString) :
    splitNL (xs ++ 10 :: ys) = splitNL xs ++ splitNL ys := by
  induction xs with
  | nil => simp [splitNL]
  | cons b rest ih =>
    by_cases hb : b = 10
    · simp [splitNL, hb, ih]
    · cases h : splitNL rest with
      | nil => exact absurd h (splitNL_ne_nil rest)
      | cons seg segs => simp [splitNL, hb, ih, h]

theorem rawLines_nil : rawLines [] = [] := by
  simp [rawLines, splitNL]

theorem rawLines_append_lf (xs : GoString) : rawLines (xs ++ [10]) = splitNL xs := by
  simp [rawLines, splitNL_append_lf, splitNL, List.getLast?_append, List.dropLast_append_of_ne_nil]

theorem newlineTerminated_cases (file : GoString) (h : NewlineTerminated file) :
    file = [] ∨ ∃ body, file = body ++ [10] := by
  rcases h with h | h
  · exact Or.inl h
  · right
    rcases List.eq_nil_or_concat file with h0 | ⟨body, b, hb⟩
    · simp [h0] at h
    · subst hb
      simp at h
      exact ⟨body, by simp [h]⟩

theorem rawLines_append_line (file line : GoString) (hf : NewlineTerminated file)
    (hl : 10 ∉ line) : rawLines (file ++ (line ++ [10])) = rawLines file ++ [line] := by
  rcases newlineTerminated_cases file hf with h | ⟨body, h⟩
  · subst h
    simp [rawLines_append_lf, rawLines_nil, splitNL_of_not_mem line hl]
  · subst h
    have e : body ++ [10] ++ (line ++ [10]) = (body ++ 10 :: line) ++ [10] := by simp
    rw [e, rawLines_append_lf, rawLines_append_lf, splitNL_append_lf, splitNL_of_not_mem line hl]

theorem scanTokens_append (a b : List GoString) :
    scanTokens (a ++ b)
      = if (scanTokens a).2 then scanTokens a
        else ((scanTokens a).1 ++ (scanTokens b).1, (scanTokens b).2) := by
  induction a with
  | nil => simp [scanTokens]
  | cons raw rest ih =>
    by_cases hlen : MaxScanTokenSize ≤ raw.length
    · simp [scanTokens, hlen]
    · by_cases hr : (scanTokens rest).2 = true
      · simp [scanTokens, hlen, ih, hr]
      · simp [scanTokens, hlen, ih, hr]

theorem scanLoop_append (a b existing : List GoString) :
    scanLoop (a ++ b) existing = (scanLoop a existing).bind (scanLoop b) := by
  induction a generalizing existing with
  | nil => simp [scanLoop]
  | cons line rest ih =>
    by_cases hl : line.length > 0
    · cases ht : trackNameOf line with
      | none => simp [scanLoop, hl, ht]
      | some t => simp [scanLoop, hl, ht, ih]
    · simp [scanLoop, hl, ih]

theorem scanLoop_panics (toks existing : List GoString) (line : GoString)
    (hmem : line ∈ toks) (hne : line ≠ []) (hbad : trackNameOf line = none) :
    scanLoop toks existing = none := by
  induction toks generalizing existing with
  | nil => simp at hmem
  | cons l rest ih =>
    by_cases hl : l.length > 0
    · cases ht : trackNameOf l with
      | none => simp [scanLoop, hl, ht]
      | some t =>
        have hmem' : line ∈ rest := by
          rcases List.mem_cons.mp hmem with e | e
          · subst e
            rw [hbad] at ht
            exact absurd ht (by simp)
          · exact e
        simp only [scanLoop, hl, ht, if_true]
        exact ih _ hmem'
    · have hmem' : line ∈ rest := by
        rcases List.mem_cons.mp hmem with e | e
        · subst e
          exact absurd (List.length_pos.mpr hne) hl
        · exact e
      simp only [scanLoop, hl, if_false]
      exact ih _ hmem'

theorem lineNames_append (a b : List GoString) :
    lineNames (a ++ b) = lineNames a ++ lineNames b := by
  induction a with
  | nil => simp [lineNames]
  | cons line rest ih =>
    by_cases hl : line.length > 0
    · cases ht : trackNameOf line with
      | none => simp [lineNames, hl, ht, ih]
      | some t => simp [lineNames, hl, ht, ih]
    · simp [lineNames, hl, ih]

theorem mem_scanLoop (toks existing result : List GoString)
    (h : scanLoop toks existing = some result) (x : GoString) :
    x ∈ result ↔ x ∈ existing ∨ x ∈ lineNames toks := by
  induction toks generalizing existing with
  | nil =>
    simp [scanLoop] at h
    subst h
    simp [lineNames]
  | cons line rest ih =>
    by_cases hl : line.length > 0
    · cases ht : trackNameOf line with
      | none => simp [scanLoop, hl, ht] at h
      | some t =>
        simp only [scanLoop, hl, ht, if_true] at h
        rw [ih _ h]
        simp only [lineNames, hl, ht, if_true, List.mem_insert_iff, List.mem_cons]
        tauto
    · simp only [scanLoop, hl, if_false] at h
      rw [ih _ h]
      simp [lineNames, hl]

theorem formatLine_eq (name : GoString) (artists : List GoString) :
    formatLine name artists = lineBody name artists ++ [10] := by
  simp [formatLine, lineBody]

theorem joinSpace_eq_intercalate (artists : List GoString) :
    joinSpace artists = List.intercalate [32] artists := by
  induction artists with
  | nil => rfl
  | cons a rest ih =>
    cases rest with
    | nil => simp [joinSpace, List.intercalate]
    | cons b rest =>
      rw [joinSpace, ih]
      simp [List.intercalate, List.intersperse]

theorem not_mem_joinSpace (artists : List GoString) (h : ∀ a ∈ artists, 10 ∉ a) :
    10 ∉ joinSpace artists := by
  induction artists with
  | nil => simp [joinSpace]
  | cons a rest ih =>
    cases rest with
    | nil => simpa [joinSpace] using h a (by simp)
    | cons b rest =>
      have ha : 10 ∉ a := h a (by simp)
      have hr : 10 ∉ joinSpace (b :: rest) := ih (fun x hx => h x (List.mem_cons_of_mem _ hx))
      simp [joinSpace, ha, hr]

theorem not_mem_lineBody (name : GoString) (artists : List GoString) (hn : 10 ∉ name)
    (ha : ∀ a ∈ artists, 10 ∉ a) : 10 ∉ lineBody name artists := by
  have hj := not_mem_joinSpace artists ha
  simp [lineBody, separator, hn, hj]

theorem dropCR_lineBody (name : GoString) (artists : List GoString) :
    dropCR (lineBody name artists) = lineBody name artists := by
  have e : lineBody name artists = (name ++ separator ++ ([91] ++ joinSpace artists)) ++ [93] := by
    simp [lineBody]
  rw [dropCR, e, List.getLast?_concat]
  simp

theorem scanFile_ok_iff (data : GoString) (existing : List GoString) :
    scanFile data = .ok existing
      ↔ scanLoop (scanTokens (rawLines data)).1 [] = some existing
        ∧ (scanTokens (rawLines data)).2 = false := by
  cases h : scanLoop (scanTokens (rawLines data)).1 [] with
  | none => simp [scanFile, h]
  | some ex =>
    cases h2 : (scanTokens (rawLines data)).2 <;> simp [scanFile, h, h2]

theorem scanFile_readError_iff (data : GoString) :
    scanFile data = .readError
      ↔ (∃ existing, scanLoop (scanTokens (rawLines data)).1 [] = some existing)
        ∧ (scanTokens (rawLines data)).2 = true := by
  cases h : scanLoop (scanTokens (rawLines data)).1 [] with
  | none => simp [scanFile, h]
  | some ex =>
    cases h2 : (scanTokens (rawLines data)).2 <;> simp [scanFile, h, h2]

theorem scanFile_panic_iff (data : GoString) :
    scanFile data = .panic ↔ scanLoop (scanTokens (rawLines data)).1 [] = none := by
  cases h : scanLoop (scanTokens (rawLines data)).1 [] with
  | none => simp [scanFile, h]
  | some ex =>
    cases h2 : (scanTokens (rawLines data)).2 <;> simp [scanFile, h, h2]

theorem mem_scanFile (data : GoString) (existing : List GoString)
    (h : scanFile data = .ok existing) (x : GoString) :
    x ∈ existing ↔ x ∈ scannedKeys data := by
  have h1 := ((scanFile_ok_iff data existing).mp h).1
  simpa [scannedKeys] using mem_scanLoop _ _ _ h1 x

/-- The scan of a log to which a line of line 179 that fits the buffer was
appended. -/
theorem scanFile_append_line (log name : GoString) (existing artists : List GoString)
    (hterm : NewlineTerminated log) (hok : scanFile log = .ok existing)
    (h45 : 45 ∉ name) (h10 : 10 ∉ lineBody name artists)
    (hlen : (lineBody name artists).length < MaxScanTokenSize) :
    scanFile (log ++ formatLine name artists) = .ok (existing.insert name)
      ∧ scannedKeys (log ++ formatLine name artists) = scannedKeys log ++ [name] := by
  obtain ⟨h1, h2⟩ := (scanFile_ok_iff log existing).mp hok
  have hlen' : ¬ MaxScanTokenSize ≤ (lineBody name artists).length := by omega
  have htoks : scanTokens (rawLines (log ++ formatLine name artists))
      = ((scanTokens (rawLines log)).1 ++ [lineBody name artists], false) := by
    rw [formatLine_eq, rawLines_append_line log _ hterm h10, scanTokens_append, h2]
    simp [scanTokens, hlen', dropCR_lineBody]
  have hname : trackNameOf (lineBody name artists) = some name := by
    rw [lineBody]
    exact trackNameOf_formatted name _ h45
  have hpos : (lineBody name artists).length > 0 := by
    simp [lineBody, separator]
  constructor
  · rw [scanFile_ok_iff, htoks]
    refine ⟨?_, rfl⟩
    show scanLoop ((scanTokens (rawLines log)).1 ++ [lineBody name artists]) [] = _
    rw [scanLoop_append, h1]
    simp [scanLoop, hpos, hname]
  · rw [scannedKeys, htoks]
    show lineNames ((scanTokens (rawLines log)).1 ++ [lineBody name artists]) = _
    rw [lineNames_append]
    simp [lineNames, hpos, hname, scannedKeys]

/-- The scan of a log to which a line too long for the scanner was appended. -/
theorem scanFile_append_long_line (log name : GoString) (existing artists : List GoString)
    (hterm : NewlineTerminated log) (hok : scanFile log = .ok existing)
    (h10 : 10 ∉ lineBody name artists)
    (hlen : MaxScanTokenSize ≤ (lineBody name artists).length) :
    scanFile (log ++ formatLine name artists) = .readError
      ∧ scannedKeys (log ++ formatLine name artists) = scannedKeys log := by
  obtain ⟨h1, h2⟩ := (scanFile_ok_iff log existing).mp hok
  have htoks : scanTokens (rawLines (log ++ formatLine name artists))
      = ((scanTokens (rawLines log)).1, true) := by
    rw [formatLine_eq, rawLines_append_line log _ hterm h10, scanTokens_append, h2]
    simp [scanTokens, hlen]
  constructor
  · rw [scanFile_readError_iff, htoks]
    exact ⟨⟨existing, h1⟩, rfl⟩
  · rw [scannedKeys, htoks]
    rfl

theorem newlineTerminated_append_formatLine (log name : GoString) (artists : List GoString) :
    NewlineTerminated (log ++ formatLine name artists) := by
  right
  rw [formatLine_eq, ← List.append_assoc, List.getLast?_concat]

/-! ## Lemmas on the names of the lines -/

theorem Index_split (s sub : GoString) (h : 0 ≤ Index s sub) :
    ∃ rest, s = s.take (Index s sub).toNat ++ (sub ++ rest) := by
  induction s with
  | nil =>
    by_cases hs : sub = []
    · exact ⟨[], by simp [hs]⟩
    · simp [Index, hs] at h
  | cons b tl ih =>
    by_cases hp : sub.isPrefixOf (b :: tl) = true
    · obtain ⟨t, ht⟩ := List.isPrefixOf_iff_prefix.mp hp
      refine ⟨t, ?_⟩
      have h0 : Index (b :: tl) sub = 0 := by simp [Index, hp]
      rw [h0]
      simpa using ht.symm
    · have hidx : Index (b :: tl) sub
          = if Index tl sub < 0 then -1 else Index tl sub + 1 := by
        simp [Index, hp]
      by_cases hneg : Index tl sub < 0
      · rw [hidx, if_pos hneg] at h
        omega
      · have h0 : 0 ≤ Index tl sub := by omega
        obtain ⟨rest, hr⟩ := ih h0
        refine ⟨rest, ?_⟩
        have e : (Index tl sub + 1).toNat = (Index tl sub).toNat + 1 := by omega
        rw [hidx, if_neg hneg, e, List.take_succ_cons, List.cons_append, ← hr]

theorem nameBeforeSeparator_split (line name : GoString)
    (h : nameBeforeSeparator line = some name) :
    ∃ rest, line = name ++ (separator ++ rest) := by
  unfold nameBeforeSeparator at h
  by_cases h0 : 0 ≤ Index line separator
  · rw [if_pos h0] at h
    obtain ⟨rest, hr⟩ := Index_split line separator h0
    have hn : List.take (Index line separator).toNat line = name := by simpa using h
    rw [hn] at hr
    exact ⟨rest, hr⟩
  · rw [if_neg h0] at h
    exact absurd h (by simp)

theorem Index_separator_formatted (name rest : GoString) (h : 45 ∉ name) :
    Index (name ++ (separator ++ rest)) separator = name.length := by
  induction name with
  | nil => simp [Index, separator, List.isPrefixOf]
  | cons b tl ih =>
    have hr : 45 ∉ tl := fun e => h (List.mem_cons_of_mem _ e)
    have hlt : ¬ ((tl.length : Int) < 0) := by omega
    have hp : separator.isPrefixOf (b :: tl ++ (separator ++ rest)) = false := by
      cases tl with
      | nil => simp [separator, List.isPrefixOf]
      | cons c tl' =>
        have hc : ¬ (45 = c) := fun e => h (by simp [← e])
        simp [separator, List.isPrefixOf, hc]
    rw [List.cons_append, Index]
    rw [List.cons_append] at hp
    simp only [hp, ih hr]
    simp

theorem nameBeforeSeparator_formatted (name rest : GoString) (h : 45 ∉ name) :
    nameBeforeSeparator (name ++ (separator ++ rest)) = some name := by
  simp [nameBeforeSeparator, Index_separator_formatted name rest h]

theorem dropCR_formatted (name rest : GoString) :
    ∃ rest', dropCR (name ++ (separator ++ rest)) = name ++ (separator ++ rest') := by
  rcases List.eq_nil_or_concat rest with h | ⟨r, c, h⟩
  · subst h
    refine ⟨[], ?_⟩
    have e : name ++ (separator ++ []) = (name ++ [32, 45]) ++ [32] := by simp [separator]
    rw [dropCR, e, List.getLast?_concat]
    simp
  · rw [List.concat_eq_append] at h
    subst h
    have e : name ++ (separator ++ (r ++ [c])) = (name ++ (separator ++ r)) ++ [c] := by simp
    by_cases hc : c = 13
    · refine ⟨r, ?_⟩
      rw [dropCR, e, List.getLast?_concat]
      simp [hc]
    · refine ⟨r ++ [c], ?_⟩
      rw [dropCR, e, List.getLast?_concat]
      simp [hc]

theorem scanTokens_of_no_error (raws : List GoString) (h : (scanTokens raws).2 = false) :
    (scanTokens raws).1 = raws.map dropCR := by
  induction raws with
  | nil => simp [scanTokens]
  | cons raw rest ih =>
    by_cases hlen : MaxScanTokenSize ≤ raw.length
    · simp [scanTokens, hlen] at h
    · simp only [scanTokens, hlen, if_false] at h
      simp [scanTokens, hlen, ih h]

theorem mem_lineNames (toks : List GoString) (line name : GoString) (hmem : line ∈ toks)
    (hne : line ≠ []) (hname : trackNameOf line = some name) : name ∈ lineNames toks := by
  induction toks with
  | nil => simp at hmem
  | cons l rest ih =>
    rcases List.mem_cons.mp hmem with e | e
    · subst e
      have hl : line.length > 0 := List.length_pos.mpr hne
      simp [lineNames, hl, hname]
    · have := ih e
      by_cases hl : l.length > 0
      · cases ht : trackNameOf l with
        | none => simpa [lineNames, hl, ht] using this
        | some t => simp [lineNames, hl, ht, this]
      · simpa [lineNames, hl] using this

/-- A name without hyphen that stands before the first " - " of a line of the
log is among the keys of a scan that ended well. -/
theorem mem_existing_of_namesOnLines (log name : GoString) (existing : List GoString)
    (hok : scanFile log = .ok existing) (h45 : 45 ∉ name) (hmem : name ∈ namesOnLines log) :
    name ∈ existing := by
  obtain ⟨h1, h2⟩ := (scanFile_ok_iff log existing).mp hok
  obtain ⟨raw, hraw, hname⟩ := List.mem_filterMap.mp hmem
  obtain ⟨rest, hsplit⟩ := nameBeforeSeparator_split raw name hname
  obtain ⟨rest', hdrop⟩ := dropCR_formatted name rest
  have htok : dropCR raw ∈ (scanTokens (rawLines log)).1 := by
    rw [scanTokens_of_no_error _ h2]
    exact List.mem_map.mpr ⟨raw, hraw, rfl⟩
  rw [hsplit, hdrop] at htok
  have hne : name ++ (separator ++ rest') ≠ [] := by simp [separator]
  have hkey : trackNameOf (name ++ (separator ++ rest')) = some name := by
    rw [← List.append_assoc]
    exact trackNameOf_formatted name rest' h45
  exact (mem_scanLoop _ _ _ h1 name).mpr (Or.inr (mem_lineNames _ _ _ htok hne hkey))

theorem namesOnLines_append_line (log name : GoString) (artists : List GoString)
    (hterm : NewlineTerminated log) (h45 : 45 ∉ name) (h10 : 10 ∉ lineBody name artists) :
    namesOnLines (log ++ formatLine name artists) = namesOnLines log ++ [name] := by
  have hname : nameBeforeSeparator (lineBody name artists) = some name := by
    rw [lineBody, List.append_assoc]
    exact nameBeforeSeparator_formatted name _ h45
  rw [namesOnLines, formatLine_eq, rawLines_append_line log _ hterm h10, List.filterMap_append]
  simp [namesOnLines, hname]

theorem scanFile_long_first_line (n : Nat) (rest : GoString) (h : MaxScanTokenSize ≤ n) :
    scanFile (List.replicate n 97 ++ 10 :: rest) = .readError := by
  have hs : splitNL (List.replicate n 97) = [List.replicate n 97] :=
    splitNL_of_not_mem _ (by simp [List.mem_replicate])
  have hraw : ∃ tl, rawLines (List.replicate n 97 ++ 10 :: rest) = List.replicate n 97 :: tl := by
    cases hr : splitNL rest with
    | nil => exact absurd hr (splitNL_ne_nil rest)
    | cons seg segs =>
      by_cases hlast : (seg :: segs).getLast? = some []
      · exact ⟨(seg :: segs).dropLast, by
          simp [rawLines, splitNL_append_lf, hs, hr, List.getLast?_cons_cons, hlast]⟩
      · exact ⟨seg :: segs, by
          simp [rawLines, splitNL_append_lf, hs, hr, List.getLast?_cons_cons, hlast]⟩
  obtain ⟨tl, htl⟩ := hraw
  rw [scanFile_readError_iff, htl]
  simp [scanTokens, h, scanLoop]

theorem Index_hyphen_of_mem (line : GoString) (h : 45 ∈ line) :
    0 ≤ Index line hyphen ∧ Index line hyphen < line.length
      ∧ (line.head? ≠ some 45 → 1 ≤ Index line hyphen) := by
  induction line with
  | nil => simp at h
  | cons b tl ih =>
    by_cases hb : b = 45
    · subst hb
      simp [Index_hyphen_cons]
    · have htl : 45 ∈ tl := by
        rcases List.mem_cons.mp h with e | e
        · exact absurd e.symm hb
        · exact e
      obtain ⟨h0, h1, _⟩ := ih htl
      have hneg : ¬ (Index tl hyphen < 0) := by omega
      rw [Index_hyphen_cons, if_neg hb, if_neg hneg]
      simp only [List.length_cons, Nat.cast_add, Nat.cast_one]
      refine ⟨by omega, by omega, fun _ => by omega⟩

/-- The slice of line 161 faults on a line exactly when the line holds no hyphen
or begins with one. -/
theorem trackNameOf_eq_none_iff (line : GoString) :
    trackNameOf line = none ↔ 45 ∉ line ∨ line.head? = some 45 := by
  constructor
  · intro h
    by_contra hcon
    have hmem : 45 ∈ line := by
      by_contra hn
      exact hcon (Or.inl hn)
    have hhead : line.head? ≠ some 45 := fun e => hcon (Or.inr e)
    obtain ⟨_, h1, h2⟩ := Index_hyphen_of_mem line hmem
    have h3 := h2 hhead
    have hsome : 0 ≤ Index line hyphen - 1 ∧ Index line hyphen - 1 ≤ (line.length : Int) := by
      constructor <;> omega
    simp [trackNameOf, sliceTo, hsome] at h
  · rintro (h | h)
    · exact trackNameOf_of_not_mem line h
    · cases line with
      | nil => simp at h
      | cons b tl =>
        have hb : b = 45 := by simpa using h
        subst hb
        simp [trackNameOf, sliceTo, Index_hyphen_cons]

/-! ## Lemmas on one pass of the loop -/

theorem pass_of_panic (w : World) (cp : Option CurrentlyPlaying) (file : GoString)
    (h : scanFile file = .panic) :
    getCurrentlyPlayingPass w cp file = ⟨.panicked .sliceBounds, file, [], []⟩ := by
  simp [getCurrentlyPlayingPass, h]

theorem pass_of_readError (w : World) (cp : Option CurrentlyPlaying) (file : GoString)
    (h : scanFile file = .readError) :
    getCurrentlyPlayingPass w cp file = ⟨.fatal, file, [], []⟩ := by
  simp [getCurrentlyPlayingPass, h]

theorem pass_of_absent (w : World) (cp : Option CurrentlyPlaying) (file : GoString)
    (existing : List GoString) (h : scanFile file = .ok existing)
    (habsent : cp.bind (fun c => c.Item) = none) :
    getCurrentlyPlayingPass w cp file = ⟨.panicked .nilDereference, file, [], []⟩ := by
  simp [getCurrentlyPlayingPass, h, habsent]

theorem decision_same_name (existing : List GoString) (name : GoString) :
    decision existing name [] name
      = if name ∈ existing then .alreadyLogged
        else if name = [] then .sameAsPrevious else .announce := by
  unfold decision
  by_cases h1 : name ∈ existing
  · simp [h1]
  · by_cases h2 : name = []
    · simp [h1, h2]
    · have h3 : ¬ ([] = name) := fun e => h2 e.symm
      simp [h1, h2, h3]

theorem pass_of_skip (w : World) (item : FullTrack) (file : GoString)
    (existing : List GoString) (h : scanFile file = .ok existing)
    (hskip : item.SimpleTrack.Name ∈ existing ∨ item.SimpleTrack.Name = []) :
    getCurrentlyPlayingPass w (some ⟨some item⟩) file = ⟨.completed, file, [], []⟩ := by
  have hd := decision_same_name existing item.SimpleTrack.Name
  by_cases h1 : item.SimpleTrack.Name ∈ existing
  · rw [if_pos h1] at hd
    simp [getCurrentlyPlayingPass, h, currentTrackNameOf, FullTrack.Name, hd]
  · have h2 : item.SimpleTrack.Name = [] := hskip.resolve_left h1
    rw [if_neg h1, if_pos h2] at hd
    simp [getCurrentlyPlayingPass, h, currentTrackNameOf, FullTrack.Name, hd]

theorem pass_of_announce (w : World) (item : FullTrack) (file : GoString)
    (existing : List GoString) (h : scanFile file = .ok existing)
    (h1 : item.SimpleTrack.Name ∉ existing) (h2 : item.SimpleTrack.Name ≠ []) :
    getCurrentlyPlayingPass w (some ⟨some item⟩) file
      = ⟨.completed, file ++ formatLine item.SimpleTrack.Name (artistNames item.SimpleTrack),
          [(formatLine item.SimpleTrack.Name (artistNames item.SimpleTrack),
            mapIndex item.SimpleTrack.ExternalURLs (utf8 "spotify"))],
          postNowPlaying w (formatLine item.SimpleTrack.Name (artistNames item.SimpleTrack))
            (mapIndex item.SimpleTrack.ExternalURLs (utf8 "spotify"))⟩ := by
  have hd := decision_same_name existing item.SimpleTrack.Name
  rw [if_neg h1, if_neg h2] at hd
  simp [getCurrentlyPlayingPass, h, currentTrackNameOf, FullTrack.Name, hd]

theorem formatLine_ne_nil (name : GoString) (artists : List GoString) :
    formatLine name artists ≠ [] := by
  simp [formatLine]

theorem scanFile_nil : scanFile [] = .ok [] := by
  simp [scanFile, rawLines_nil, scanTokens, scanLoop]

theorem scanFile_long_line (n : Nat) (h : MaxScanTokenSize ≤ n) :
    scanFile (List.replicate n 97) = .readError := by
  have hpos : 0 < n := lt_of_lt_of_le (by decide) h
  have hne : List.replicate n 97 ≠ [] := by
    intro e
    have := congrArg List.length e
    simp at this
    omega
  have hraw : rawLines (List.replicate n 97) = [List.replicate n 97] := by
    have hs : splitNL (List.replicate n 97) = [List.replicate n 97] :=
      splitNL_of_not_mem _ (by simp [List.mem_replicate])
    simp [rawLines, hs, hne]
  rw [scanFile_readError_iff, hraw]
  simp [scanTokens, h, scanLoop]

/-! ## The claims -/

/-- C5: whatever each relay does, `postNowPlaying` attempts a connection to each
of the eight fixed addresses once and in the order of the list, attempts a
publish on exactly the relays whose connection was made, each time with the
event built from its arguments, and its trace is the finite one written out
here, relay by relay: no outcome at one relay removes the attempt at a later
one. -/
theorem postNowPlaying_fan_out (w : World) (name endpoint : GoString) :
    connectAttempts (postNowPlaying w name endpoint) = relayURLs
    ∧ relayURLs.length = 8 ∧ relayURLs.Nodup
    ∧ publishAttempts (postNowPlaying w name endpoint)
        = relayURLs.filter (fun url => decide (w.relay url ≠ .connectFails))
    ∧ postNowPlaying w name endpoint
        = relayURLs.flatMap (fun url =>
            if w.relay url = .connectFails then [Action.connect url]
            else [Action.connect url, Action.publish url (nowPlayingEvent w name endpoint)])
    ∧ (∀ url ev, Action.publish url ev ∈ postNowPlaying w name endpoint →
        ev = nowPlayingEvent w name endpoint) := by
  refine ⟨connectAttempts_publishLoop _ _ _, by decide, by decide,
    publishAttempts_publishLoop _ _ _, publishLoop_eq_flatMap _ _ _, ?_⟩
  intro url ev h
  exact publish_mem_publishLoop _ _ _ _ _ h

/-- C6: when a pass does not skip (the scan ended well and the conditions of
lines 169 and 171 both fail), the file afterwards is the file before followed by
the name, " - [", the artist names joined by single spaces, "]" and a line feed;
`postNowPlaying` is called once, with that line as the name and the value of the
key "spotify" of the external URLs as the endpoint, and every event published
has that line as its content and the endpoint in its "r" tag. -/
theorem announce_appends_and_posts (w : World) (item : FullTrack) (file : GoString)
    (existing : List GoString) (hscan : scanFile file = .ok existing)
    (hdec : decision existing item.SimpleTrack.Name [] item.Name = .announce) :
    (getCurrentlyPlayingPass w (some ⟨some item⟩) file).outcome = .completed
    ∧ (getCurrentlyPlayingPass w (some ⟨some item⟩) file).file
        = file ++ (item.SimpleTrack.Name ++ utf8 " - [" ++
            List.intercalate [32] (item.SimpleTrack.Artists.map (fun a => a.Name)) ++
            utf8 "]" ++ [10])
    ∧ (getCurrentlyPlayingPass w (some ⟨some item⟩) file).posts
        = [(item.SimpleTrack.Name ++ utf8 " - [" ++
              List.intercalate [32] (item.SimpleTrack.Artists.map (fun a => a.Name)) ++
              utf8 "]" ++ [10],
            mapIndex item.SimpleTrack.ExternalURLs (utf8 "spotify"))]
    ∧ connectAttempts (getCurrentlyPlayingPass w (some ⟨some item⟩) file).net = relayURLs
    ∧ (∀ url ev, Action.publish url ev ∈ (getCurrentlyPlayingPass w (some ⟨some item⟩) file).net →
        ev.Content = item.SimpleTrack.Name ++ utf8 " - [" ++
            List.intercalate [32] (item.SimpleTrack.Artists.map (fun a => a.Name)) ++
            utf8 "]" ++ [10]
        ∧ ev.Tags = [[utf8 "d", utf8 "music"],
            [utf8 "r", mapIndex item.SimpleTrack.ExternalURLs (utf8 "spotify")]]) := by
  have hd := decision_same_name existing item.SimpleTrack.Name
  have h1 : item.SimpleTrack.Name ∉ existing := by
    intro hmem
    rw [FullTrack.Name, hd, if_pos hmem] at hdec
    exact absurd hdec (by decide)
  have h2 : item.SimpleTrack.Name ≠ [] := by
    intro he
    rw [FullTrack.Name, hd, if_neg h1, if_pos he] at hdec
    exact absurd hdec (by decide)
  have hline : formatLine item.SimpleTrack.Name (artistNames item.SimpleTrack)
      = item.SimpleTrack.Name ++ utf8 " - [" ++
          List.intercalate [32] (item.SimpleTrack.Artists.map (fun a => a.Name)) ++
          utf8 "]" ++ [10] := by
    have e1 : utf8 " - [" = [32, 45, 32, 91] := by decide
    have e2 : utf8 "]" = [93] := by decide
    rw [formatLine, joinSpace_eq_intercalate, artistNames, e1, e2]
    simp [separator]
  rw [pass_of_announce w item file existing hscan h1 h2, hline]
  refine ⟨rfl, rfl, rfl, connectAttempts_publishLoop _ _ _, ?_⟩
  intro url ev hmem
  have hev := publish_mem_publishLoop _ _ _ _ _ hmem
  subst hev
  exact ⟨rfl, rfl⟩

/-- C6, the example of the specification: with "Song A - [Artist1]" in the log,
the track "Song B" by Artist2 is not skipped; the line "Song B - [Artist2]" is
appended, and the content published is that line. -/
theorem announce_appends_and_posts_witness :
    scanFile (utf8 "Song A - [Artist1]\n") = .ok [utf8 "Song A"]
    ∧ decision [utf8 "Song A"] (utf8 "Song B") [] (utf8 "Song B") = .announce
    ∧ (getCurrentlyPlayingPass allRelaysUp
          (playing (utf8 "Song B") [utf8 "Artist2"] [(utf8 "spotify", utf8 "https://open.spotify.com/track/b")])
          (utf8 "Song A - [Artist1]\n")).file
        = utf8 "Song A - [Artist1]\nSong B - [Artist2]\n"
    ∧ (getCurrentlyPlayingPass allRelaysUp
          (playing (utf8 "Song B") [utf8 "Artist2"] [(utf8 "spotify", utf8 "https://open.spotify.com/track/b")])
          (utf8 "Song A - [Artist1]\n")).posts
        = [(utf8 "Song B - [Artist2]\n", utf8 "https://open.spotify.com/track/b")] :=
  ⟨by decide, by decide,
   (announce_appends_and_posts allRelaysUp
      ⟨⟨[⟨utf8 "Artist2"⟩], [(utf8 "spotify", utf8 "https://open.spotify.com/track/b")], utf8 "Song B"⟩⟩
      (utf8 "Song A - [Artist1]\n") [utf8 "Song A"] (by decide) (by decide)).2.1.trans (by decide),
   (announce_appends_and_posts allRelaysUp
      ⟨⟨[⟨utf8 "Artist2"⟩], [(utf8 "spotify", utf8 "https://open.spotify.com/track/b")], utf8 "Song B"⟩⟩
      (utf8 "Song A - [Artist1]\n") [utf8 "Song A"] (by decide) (by decide)).2.2.1.trans (by decide)⟩

/-- C4, as stated, fails: on an empty log a playing track whose name is the
empty string is skipped by the condition of line 171 (both names are empty);
nothing is appended and no relay is contacted. -/
theorem empty_log_unnamed_track_skipped :
    (getCurrentlyPlayingPass allRelaysUp (playing [] [utf8 "Artist1"] []) []).outcome = .completed
    ∧ (getCurrentlyPlayingPass allRelaysUp (playing [] [utf8 "Artist1"] []) []).file = []
    ∧ (getCurrentlyPlayingPass allRelaysUp (playing [] [utf8 "Artist1"] []) []).posts = []
    ∧ (getCurrentlyPlayingPass allRelaysUp (playing [] [utf8 "Artist1"] []) []).net = [] := by
  decide

/-- C4, amended: on an empty log, for every playing track whose name is not
empty, one pass completes, leaves the file holding exactly the formatted line,
calls `postNowPlaying` exactly once, and that call makes one connection attempt
to each of the eight fixed relay addresses, in order. -/
theorem empty_log_announces_once (w : World) (item : FullTrack)
    (hname : item.SimpleTrack.Name ≠ []) :
    (getCurrentlyPlayingPass w (some ⟨some item⟩) []).outcome = .completed
    ∧ (getCurrentlyPlayingPass w (some ⟨some item⟩) []).file
        = formatLine item.SimpleTrack.Name (artistNames item.SimpleTrack)
    ∧ (getCurrentlyPlayingPass w (some ⟨some item⟩) []).posts
        = [(formatLine item.SimpleTrack.Name (artistNames item.SimpleTrack),
            mapIndex item.SimpleTrack.ExternalURLs (utf8 "spotify"))]
    ∧ connectAttempts (getCurrentlyPlayingPass w (some ⟨some item⟩) []).net = relayURLs
    ∧ (connectAttempts (getCurrentlyPlayingPass w (some ⟨some item⟩) []).net).length = 8 := by
  rw [pass_of_announce w item [] [] scanFile_nil (by simp) hname]
  refine ⟨rfl, by simp, rfl, connectAttempts_publishLoop _ _ _, ?_⟩
  show (connectAttempts (publishLoop _ _ relayURLs)).length = 8
  rw [connectAttempts_publishLoop]
  decide

/-- C4, amended, at the track "Song A" by Artist1. -/
theorem empty_log_announces_once_witness :
    utf8 "Song A" ≠ []
    ∧ (getCurrentlyPlayingPass allRelaysUp (playing (utf8 "Song A") [utf8 "Artist1"] []) []).file
        = utf8 "Song A - [Artist1]\n"
    ∧ (connectAttempts
        (getCurrentlyPlayingPass allRelaysUp (playing (utf8 "Song A") [utf8 "Artist1"] []) []).net).length
        = 8 :=
  ⟨by decide,
   (empty_log_announces_once allRelaysUp ⟨⟨[⟨utf8 "Artist1"⟩], [], utf8 "Song A"⟩⟩
      (by decide)).2.1.trans (by decide),
   (empty_log_announces_once allRelaysUp ⟨⟨[⟨utf8 "Artist1"⟩], [], utf8 "Song A"⟩⟩
      (by decide)).2.2.2.2⟩

/-- C7, as stated, fails at the empty name: on an empty log the membership set
is empty, the empty name is not in it, and yet the pass skips, by the condition
of line 171 alone. -/
theorem previous_track_check_decides_unnamed_track :
    scanFile [] = .ok []
    ∧ ([] : GoString) ∉ ([] : List GoString)
    ∧ decision [] [] [] (currentTrackNameOf (playing [] [] [])) = .sameAsPrevious
    ∧ (getCurrentlyPlayingPass allRelaysUp (playing [] [] []) []).skipped [] := by
  refine ⟨by decide, by decide, by decide, ?_⟩
  unfold PassResult.skipped
  decide

/-- C7, amended: for every log whose scan ends well and every playing track
whose name is not empty, the pass skips (completes with the file unchanged and
nothing published) if and only if the name is in the membership set scanned
from the log, and the three-way decision is the one of the membership check
alone; a track with the empty name is skipped whatever the log holds. -/
theorem skip_iff_logged (w : World) (item : FullTrack) (file : GoString)
    (existing : List GoString) (hscan : scanFile file = .ok existing) :
    (item.SimpleTrack.Name ≠ [] →
      (((getCurrentlyPlayingPass w (some ⟨some item⟩) file).skipped file
          ↔ item.SimpleTrack.Name ∈ existing)
        ∧ decision existing item.SimpleTrack.Name [] (currentTrackNameOf (some ⟨some item⟩))
            = if item.SimpleTrack.Name ∈ existing then .alreadyLogged else .announce))
    ∧ (item.SimpleTrack.Name = [] →
        (getCurrentlyPlayingPass w (some ⟨some item⟩) file).skipped file) := by
  constructor
  · intro hname
    have hd := decision_same_name existing item.SimpleTrack.Name
    constructor
    · constructor
      · intro hskip
        by_contra hmem
        rw [pass_of_announce w item file existing hscan hmem hname] at hskip
        have := hskip.2.2.1
        simp at this
      · intro hmem
        rw [pass_of_skip w item file existing hscan (Or.inl hmem)]
        exact ⟨rfl, rfl, rfl, rfl⟩
    · show decision existing item.SimpleTrack.Name [] item.SimpleTrack.Name = _
      rw [hd]
      by_cases hmem : item.SimpleTrack.Name ∈ existing
      · simp [hmem]
      · simp [hmem, hname]
  · intro hname
    rw [pass_of_skip w item file existing hscan (Or.inr hname)]
    exact ⟨rfl, rfl, rfl, rfl⟩

/-- C7, amended, at the log "Song A - [Artist1]" and the track "Song A". -/
theorem skip_iff_logged_witness :
    scanFile (utf8 "Song A - [Artist1]\n") = .ok [utf8 "Song A"]
    ∧ ((getCurrentlyPlayingPass allRelaysUp (playing (utf8 "Song A") [utf8 "Artist1"] [])
          (utf8 "Song A - [Artist1]\n")).skipped (utf8 "Song A - [Artist1]\n")
        ↔ utf8 "Song A" ∈ [utf8 "Song A"]) :=
  ⟨by decide,
   ((skip_iff_logged allRelaysUp ⟨⟨[⟨utf8 "Artist1"⟩], [], utf8 "Song A"⟩⟩
      (utf8 "Song A - [Artist1]\n") [utf8 "Song A"] (by decide)).1 (by decide)).1⟩

/-- C9, as stated, fails at each of these inputs. The line "a-b" is not empty
and lacks the separator " - ", and the scan of the log made of it does not
fault: it ends well with the empty name in the membership set, and the pass
goes on to append and publish. In a log whose first line has
`MaxScanTokenSize` bytes, the line "garbage" behind it is never delivered: the
scan ends with the error of the scanner and the pass in the `log.Fatalf` of
line 166. -/
theorem line_without_separator_need_not_fault :
    (rawLines (utf8 "a-b\n") = [utf8 "a-b"]
      ∧ Index (utf8 "a-b") separator = -1
      ∧ scanFile (utf8 "a-b\n") = .ok [[]]
      ∧ (getCurrentlyPlayingPass allRelaysUp (playing (utf8 "Song B") [utf8 "Artist2"] [])
            (utf8 "a-b\n")).outcome = .completed
      ∧ (getCurrentlyPlayingPass allRelaysUp (playing (utf8 "Song B") [utf8 "Artist2"] [])
            (utf8 "a-b\n")).file = utf8 "a-b\nSong B - [Artist2]\n")
    ∧ (utf8 "garbage" ∈ rawLines (List.replicate MaxScanTokenSize 97 ++ 10 :: (utf8 "garbage" ++ [10]))
      ∧ utf8 "garbage" ≠ []
      ∧ Index (utf8 "garbage") separator = -1
      ∧ scanFile (List.replicate MaxScanTokenSize 97 ++ 10 :: (utf8 "garbage" ++ [10])) = .readError
      ∧ (getCurrentlyPlayingPass allRelaysUp (playing (utf8 "Song B") [utf8 "Artist2"] [])
            (List.replicate MaxScanTokenSize 97 ++ 10 :: (utf8 "garbage" ++ [10]))).outcome
          = .fatal) := by
  have herr := scanFile_long_first_line MaxScanTokenSize (utf8 "garbage" ++ [10]) (le_refl _)
  refine ⟨by decide, ?_, by decide, by decide, herr, ?_⟩
  · have e : List.replicate MaxScanTokenSize 97 ++ 10 :: (utf8 "garbage" ++ [10])
        = (List.replicate MaxScanTokenSize 97 ++ 10 :: utf8 "garbage") ++ [10] := by simp
    rw [e, rawLines_append_lf, splitNL_append_lf, splitNL_of_not_mem (utf8 "garbage") (by decide)]
    simp
  · rw [pass_of_readError _ _ _ herr]

/-- C9, amended: for every log in which the scanner delivers a line that is not
empty and that holds no hyphen at all or begins with a hyphen, the scan ends in
the slice-bounds panic of line 161 (the bound is negative: -2 without a hyphen,
-1 behind a leading one), no membership set is produced, and the pass appends
nothing and publishes nothing, whatever is playing. These are the only lines
on which the slice faults, so of the lines that lack " - " only those whose
first hyphen stands behind the first byte are left out. -/
theorem malformed_line_faults (w : World) (cp : Option CurrentlyPlaying)
    (file line : GoString) (hline : line ∈ (scanTokens (rawLines file)).1)
    (hne : line ≠ []) (hbad : 45 ∉ line ∨ line.head? = some 45) :
    Index line hyphen - 1 < 0
    ∧ (45 ∉ line → Index line hyphen - 1 = -2)
    ∧ (line.head? = some 45 → Index line hyphen - 1 = -1)
    ∧ trackNameOf line = none
    ∧ scanFile file = .panic
    ∧ getCurrentlyPlayingPass w cp file = ⟨.panicked .sliceBounds, file, [], []⟩
    ∧ (∀ other : GoString, trackNameOf other = none ↔ 45 ∉ other ∨ other.head? = some 45) := by
  have hnone : trackNameOf line = none := (trackNameOf_eq_none_iff line).mpr hbad
  have hp : scanFile file = .panic :=
    (scanFile_panic_iff file).mpr (scanLoop_panics _ [] line hline hne hnone)
  have h2 : 45 ∉ line → Index line hyphen - 1 = -2 := by
    intro hno
    rw [Index_hyphen_of_not_mem line hno]
    rfl
  have h1 : line.head? = some 45 → Index line hyphen - 1 = -1 := by
    intro hh
    cases line with
    | nil => simp at hh
    | cons b tl =>
      have hb : b = 45 := by simpa using hh
      subst hb
      simp [Index_hyphen_cons]
  refine ⟨?_, h2, h1, hnone, hp, pass_of_panic w cp file hp, trackNameOf_eq_none_iff⟩
  rcases hbad with h | h
  · rw [h2 h]
    decide
  · rw [h1 h]
    decide

/-- C9, amended, at a log whose second line is "-x": it lacks " - ", begins
with a hyphen, and the bound of the slice is -1. -/
theorem malformed_line_faults_witness :
    utf8 "-x" ∈ (scanTokens (rawLines (utf8 "Song A - [Artist1]\n-x\n"))).1
    ∧ utf8 "-x" ≠ []
    ∧ (45 ∉ utf8 "-x" ∨ (utf8 "-x").head? = some 45)
    ∧ Index (utf8 "-x") separator = -1
    ∧ Index (utf8 "-x") hyphen - 1 = -1
    ∧ getCurrentlyPlayingPass allRelaysUp (playing (utf8 "Song B") [utf8 "Artist2"] [])
          (utf8 "Song A - [Artist1]\n-x\n")
        = ⟨.panicked .sliceBounds, utf8 "Song A - [Artist1]\n-x\n", [], []⟩ :=
  ⟨by decide, by decide, by decide, by decide,
   (malformed_line_faults allRelaysUp (playing (utf8 "Song B") [utf8 "Artist2"] [])
      (utf8 "Song A - [Artist1]\n-x\n") (utf8 "-x")
      (by decide) (by decide) (by decide)).2.2.1 (by decide),
   (malformed_line_faults allRelaysUp (playing (utf8 "Song B") [utf8 "Artist2"] [])
      (utf8 "Song A - [Artist1]\n-x\n") (utf8 "-x")
      (by decide) (by decide) (by decide)).2.2.2.2.2.1⟩

/-- C10, as stated, fails: with no item playing and a log whose first line has
`MaxScanTokenSize` bytes, the scanner stops with `ErrTooLong`, so the pass ends
in the `log.Fatalf` of line 166 and not in a panic. -/
theorem absent_item_long_line_is_fatal :
    (getCurrentlyPlayingPass allRelaysUp (some ⟨none⟩) (List.replicate MaxScanTokenSize 97)).outcome
        = .fatal
    ∧ ∀ p, (getCurrentlyPlayingPass allRelaysUp (some ⟨none⟩)
              (List.replicate MaxScanTokenSize 97)).outcome ≠ .panicked p := by
  rw [pass_of_readError _ _ _ (scanFile_long_line MaxScanTokenSize (le_refl _))]
  exact ⟨rfl, fun p h => by cases h⟩

/-- C10, amended: when the answer is nil or carries no item, the guard of lines
147-149 leaves `currentTrackName` empty without a fault, and for every log
content the pass does not complete: it ends in the slice panic of the scan, in
the `log.Fatalf` of line 166 when the scanner stopped on a line too long for
it, or, when the scan ended well, in the nil dereference of line 169; the file
is unchanged and nothing is published. -/
theorem absent_item_never_completes (w : World) (cp : Option CurrentlyPlaying)
    (file : GoString) (habsent : cp.bind (fun c => c.Item) = none) :
    currentTrackNameOf cp = []
    ∧ (getCurrentlyPlayingPass w cp file).outcome ≠ .completed
    ∧ (scanFile file = .panic →
        (getCurrentlyPlayingPass w cp file).outcome = .panicked .sliceBounds)
    ∧ (scanFile file = .readError → (getCurrentlyPlayingPass w cp file).outcome = .fatal)
    ∧ (∀ existing, scanFile file = .ok existing →
        (getCurrentlyPlayingPass w cp file).outcome = .panicked .nilDereference)
    ∧ (getCurrentlyPlayingPass w cp file).file = file
    ∧ (getCurrentlyPlayingPass w cp file).posts = []
    ∧ (getCurrentlyPlayingPass w cp file).net = [] := by
  have hname : currentTrackNameOf cp = [] := by
    cases cp with
    | none => rfl
    | some c =>
      cases hi : c.Item with
      | none => simp [currentTrackNameOf, hi]
      | some item => simp [hi] at habsent
  cases hs : scanFile file with
  | panic =>
    rw [pass_of_panic w cp file hs]
    simp [hname]
  | readError =>
    rw [pass_of_readError w cp file hs]
    simp [hname]
  | ok existing =>
    rw [pass_of_absent w cp file existing hs habsent]
    simp [hname]

/-- C10, amended, at an answer without item and the log "Song A - [Artist1]". -/
theorem absent_item_never_completes_witness :
    (some (CurrentlyPlaying.mk none)).bind (fun c => c.Item) = none
    ∧ (getCurrentlyPlayingPass allRelaysUp (some ⟨none⟩) (utf8 "Song A - [Artist1]\n")).outcome
        = .panicked .nilDereference
    ∧ (getCurrentlyPlayingPass allRelaysUp (some ⟨none⟩) (utf8 "Song A - [Artist1]\n")).file
        = utf8 "Song A - [Artist1]\n" :=
  ⟨rfl,
   (absent_item_never_completes allRelaysUp (some ⟨none⟩) (utf8 "Song A - [Artist1]\n")
      rfl).2.2.2.2.1 [utf8 "Song A"] (by decide),
   (absent_item_never_completes allRelaysUp (some ⟨none⟩) (utf8 "Song A - [Artist1]\n")
      rfl).2.2.2.2.2.1⟩

theorem Index_separator_replicate (n : Nat) : Index (List.replicate n 97) separator = -1 := by
  induction n with
  | zero => simp [Index, separator]
  | succ n ih =>
    rw [List.replicate_succ, Index, ih]
    simp [separator, List.isPrefixOf]

/-- C1 fails on the code at a hyphenated name: the only line of the log is
"Anti-Hero - [Taylor Swift]", of the form the loop writes, and the name before
its first " - " is "Anti-Hero"; the scan of line 161 cuts the line one byte
before its first hyphen and records "Ant", so the pass for the playing track
"Anti-Hero" does not skip: it appends the line again and publishes it. -/
theorem dedup_misses_hyphenated_name :
    rawLines (utf8 "Anti-Hero - [Taylor Swift]\n") = [utf8 "Anti-Hero - [Taylor Swift]"]
    ∧ nameBeforeSeparator (utf8 "Anti-Hero - [Taylor Swift]") = some (utf8 "Anti-Hero")
    ∧ scanFile (utf8 "Anti-Hero - [Taylor Swift]\n") = .ok [utf8 "Ant"]
    ∧ (getCurrentlyPlayingPass allRelaysUp (playing (utf8 "Anti-Hero") [utf8 "Taylor Swift"] [])
          (utf8 "Anti-Hero - [Taylor Swift]\n")).file
        = utf8 "Anti-Hero - [Taylor Swift]\nAnti-Hero - [Taylor Swift]\n"
    ∧ (getCurrentlyPlayingPass allRelaysUp (playing (utf8 "Anti-Hero") [utf8 "Taylor Swift"] [])
          (utf8 "Anti-Hero - [Taylor Swift]\n")).posts
        = [(utf8 "Anti-Hero - [Taylor Swift]\n", [])]
    ∧ connectAttempts
        (getCurrentlyPlayingPass allRelaysUp (playing (utf8 "Anti-Hero") [utf8 "Taylor Swift"] [])
          (utf8 "Anti-Hero - [Taylor Swift]\n")).net = relayURLs := by
  decide

/-- C8 fails on the code: for the line "Jay-Z - [Jay-Z]", which is not empty
and contains " - ", the substring before the first " - " is "Jay-Z", while line
161 takes the bytes up to one before the first hyphen, "Ja"; the membership set
scanned from the log made of that line is the set of "Ja" alone. -/
theorem scan_cuts_before_first_hyphen :
    nameBeforeSeparator (utf8 "Jay-Z - [Jay-Z]") = some (utf8 "Jay-Z")
    ∧ Index (utf8 "Jay-Z - [Jay-Z]") hyphen = 3
    ∧ trackNameOf (utf8 "Jay-Z - [Jay-Z]") = some (utf8 "Ja")
    ∧ scanFile (utf8 "Jay-Z - [Jay-Z]\n") = .ok [utf8 "Ja"]
    ∧ utf8 "Jay-Z" ∉ [utf8 "Ja"] := by
  decide

/-- C2, as stated, fails at each of these inputs, all with a track name free of
" - ": a log whose last line is not ended by a line feed (the new record is
glued to it and its name is not in the set rescanned); an artist name or a
track name that holds a line feed (the rescan faults); a name that holds a
hyphen (the rescan records "Ant" for "Anti-Hero", by the cut of line 161); a
name of `MaxScanTokenSize` bytes (the rescan stops with `ErrTooLong`). -/
theorem round_trip_fails :
    (Index (utf8 "Song B") separator = -1
      ∧ scanFile (utf8 "Song A - [Artist1]") = .ok [utf8 "Song A"]
      ∧ scanFile (utf8 "Song A - [Artist1]" ++ formatLine (utf8 "Song B") [utf8 "Artist2"])
          = .ok [utf8 "Song A"]
      ∧ utf8 "Song B" ∉ [utf8 "Song A"])
    ∧ (scanFile [] = .ok []
      ∧ scanFile ([] ++ formatLine (utf8 "Song B") [utf8 "Artist\n2"]) = .panic)
    ∧ (Index (utf8 "Song\nB") separator = -1
      ∧ scanFile ([] ++ formatLine (utf8 "Song\nB") [utf8 "Artist2"]) = .panic)
    ∧ (Index (utf8 "Anti-Hero") separator = -1
      ∧ scanFile ([] ++ formatLine (utf8 "Anti-Hero") [utf8 "Taylor Swift"]) = .ok [utf8 "Ant"]
      ∧ trackNameOf (utf8 "Anti-Hero - [Taylor Swift]") = some (utf8 "Ant"))
    ∧ (Index (List.replicate MaxScanTokenSize 97) separator = -1
      ∧ scanFile ([] ++ formatLine (List.replicate MaxScanTokenSize 97) []) = .readError) := by
  refine ⟨by decide, by decide, by decide, by decide, Index_separator_replicate _, ?_⟩
  refine (scanFile_append_long_line [] (List.replicate MaxScanTokenSize 97) [] []
    (Or.inl rfl) scanFile_nil ?_ ?_).1
  · exact not_mem_lineBody _ _ (by simp [List.mem_replicate]) (by simp)
  · simp [lineBody]

/-- C2, amended: for every log that is empty or ends with a line feed and whose
scan ends well with membership set `existing`, every track name that holds
neither a hyphen nor a line feed, and every list of artist names free of line
feeds, if the formatted record fits the buffer of the scanner, then the scan of
the log with the record appended ends well, its membership set is `existing`
with the name added, the record is the one new line of the file, and the name
parsed back from that line is the track name. -/
theorem round_trip_of_plain_name (log name : GoString) (existing artists : List GoString)
    (hterm : NewlineTerminated log) (hok : scanFile log = .ok existing)
    (h45 : 45 ∉ name) (h10 : 10 ∉ name) (ha : ∀ a ∈ artists, 10 ∉ a)
    (hlen : (formatLine name artists).length ≤ MaxScanTokenSize) :
    ∃ existing', scanFile (log ++ formatLine name artists) = .ok existing'
      ∧ (∀ x, x ∈ existing' ↔ x ∈ existing ∨ x = name)
      ∧ rawLines (log ++ formatLine name artists)
          = rawLines log ++ [(formatLine name artists).dropLast]
      ∧ trackNameOf (formatLine name artists).dropLast = some name := by
  have hbody : 10 ∉ lineBody name artists := not_mem_lineBody name artists h10 ha
  have hlen' : (lineBody name artists).length < MaxScanTokenSize := by
    rw [formatLine_eq] at hlen
    simp at hlen
    omega
  have hdrop : (formatLine name artists).dropLast = lineBody name artists := by
    rw [formatLine_eq]
    simp
  refine ⟨existing.insert name,
    (scanFile_append_line log name existing artists hterm hok h45 hbody hlen').1, ?_, ?_, ?_⟩
  · intro x
    rw [List.mem_insert_iff]
    tauto
  · rw [hdrop, formatLine_eq]
    exact rawLines_append_line log _ hterm hbody
  · rw [hdrop, lineBody]
    exact trackNameOf_formatted name _ h45

/-- C2, amended, at the log "Song A - [Artist1]" and the track "Song B". -/
theorem round_trip_of_plain_name_witness :
    NewlineTerminated (utf8 "Song A - [Artist1]\n")
    ∧ scanFile (utf8 "Song A - [Artist1]\n") = .ok [utf8 "Song A"]
    ∧ 45 ∉ utf8 "Song B" ∧ 10 ∉ utf8 "Song B"
    ∧ (∀ a ∈ [utf8 "Artist2"], 10 ∉ a)
    ∧ (formatLine (utf8 "Song B") [utf8 "Artist2"]).length ≤ MaxScanTokenSize
    ∧ ∃ existing',
        scanFile (utf8 "Song A - [Artist1]\n" ++ formatLine (utf8 "Song B") [utf8 "Artist2"])
          = .ok existing'
        ∧ (∀ x, x ∈ existing' ↔ x ∈ [utf8 "Song A"] ∨ x = utf8 "Song B")
        ∧ rawLines (utf8 "Song A - [Artist1]\n" ++ formatLine (utf8 "Song B") [utf8 "Artist2"])
            = rawLines (utf8 "Song A - [Artist1]\n")
                ++ [(formatLine (utf8 "Song B") [utf8 "Artist2"]).dropLast]
        ∧ trackNameOf (formatLine (utf8 "Song B") [utf8 "Artist2"]).dropLast
            = some (utf8 "Song B") :=
  ⟨Or.inr (by decide), by decide, by decide, by decide, by decide, by decide,
   round_trip_of_plain_name (utf8 "Song A - [Artist1]\n") (utf8 "Song B") [utf8 "Song A"]
     [utf8 "Artist2"] (Or.inr (by decide)) (by decide) (by decide) (by decide) (by decide)
     (by decide)⟩

/-- C3, as stated, fails at each of these inputs. A log whose one line is not
ended by a line feed: two passes with the track "Song B" both append and both
publish. A track name that starts with a line feed, or an artist name that
holds one: after one pass the name "B" is on two lines. A name that holds a
hyphen: two passes with "Anti-Hero" on an empty log both append, and the name
is on two lines. -/
theorem at_most_once_fails :
    ((namesOnLines (utf8 "Song A - [Artist1]")).Nodup
      ∧ scanFile (utf8 "Song A - [Artist1]") = .ok [utf8 "Song A"]
      ∧ (getCurrentlyPlaying
            [(allRelaysUp, playing (utf8 "Song B") [utf8 "Artist2"] []),
             (allRelaysUp, playing (utf8 "Song B") [utf8 "Artist2"] [])]
            (utf8 "Song A - [Artist1]")).map (fun r => (r.file, r.posts))
          = [(utf8 "Song A - [Artist1]Song B - [Artist2]\n", [(utf8 "Song B - [Artist2]\n", [])]),
             (utf8 "Song A - [Artist1]Song B - [Artist2]\nSong B - [Artist2]\n",
              [(utf8 "Song B - [Artist2]\n", [])])])
    ∧ ((namesOnLines (utf8 "B - [z]\n")).Nodup
      ∧ scanFile (utf8 "B - [z]\n") = .ok [utf8 "B"]
      ∧ namesOnLines (getCurrentlyPlayingPass allRelaysUp (playing (utf8 "\nB") [utf8 "y"] [])
            (utf8 "B - [z]\n")).file = [utf8 "B", utf8 "B"])
    ∧ (namesOnLines (getCurrentlyPlayingPass allRelaysUp (playing (utf8 "B") [utf8 "x\nB - y"] [])
            []).file = [utf8 "B", utf8 "B"])
    ∧ ((getCurrentlyPlaying
            [(allRelaysUp, playing (utf8 "Anti-Hero") [] []),
             (allRelaysUp, playing (utf8 "Anti-Hero") [] [])] []).map
            (fun r => (r.file, r.posts))
          = [(utf8 "Anti-Hero - []\n", [(utf8 "Anti-Hero - []\n", [])]),
             (utf8 "Anti-Hero - []\nAnti-Hero - []\n", [(utf8 "Anti-Hero - []\n", [])])]
      ∧ namesOnLines (utf8 "Anti-Hero - []\nAnti-Hero - []\n")
          = [utf8 "Anti-Hero", utf8 "Anti-Hero"]) := by
  decide

/-- C3, amended: for every log that is empty or ends with a line feed and on
whose lines no track name (the substring before the first " - ") occurs twice,
and every playing track whose name holds neither a hyphen nor a line feed and
whose artist names hold no line feed, the log after one pass again is empty or
ends with a line feed and has no track name on two lines, its scan does not
fault if the scan of the log before did not, and a second pass with the same
track leaves that log as it is and publishes nothing. -/
theorem at_most_once_of_plain_name (w w' : World) (item : FullTrack) (log : GoString)
    (hterm : NewlineTerminated log) (hnodup : (namesOnLines log).Nodup)
    (h45 : 45 ∉ item.SimpleTrack.Name) (h10 : 10 ∉ item.SimpleTrack.Name)
    (ha : ∀ a ∈ artistNames item.SimpleTrack, 10 ∉ a) :
    NewlineTerminated (getCurrentlyPlayingPass w (some ⟨some item⟩) log).file
    ∧ (namesOnLines (getCurrentlyPlayingPass w (some ⟨some item⟩) log).file).Nodup
    ∧ (scanFile log ≠ .panic →
        scanFile (getCurrentlyPlayingPass w (some ⟨some item⟩) log).file ≠ .panic)
    ∧ (getCurrentlyPlayingPass w' (some ⟨some item⟩)
          (getCurrentlyPlayingPass w (some ⟨some item⟩) log).file).file
        = (getCurrentlyPlayingPass w (some ⟨some item⟩) log).file
    ∧ (getCurrentlyPlayingPass w' (some ⟨some item⟩)
          (getCurrentlyPlayingPass w (some ⟨some item⟩) log).file).posts = []
    ∧ (getCurrentlyPlayingPass w' (some ⟨some item⟩)
          (getCurrentlyPlayingPass w (some ⟨some item⟩) log).file).net = [] := by
  cases hs : scanFile log with
  | panic =>
    rw [pass_of_panic w _ log hs]
    simp only
    rw [pass_of_panic w' _ log hs]
    exact ⟨hterm, hnodup, fun h => absurd rfl h, rfl, rfl, rfl⟩
  | readError =>
    rw [pass_of_readError w _ log hs]
    simp only
    rw [pass_of_readError w' _ log hs]
    exact ⟨hterm, hnodup, fun _ => by rw [hs]; simp, rfl, rfl, rfl⟩
  | ok existing =>
    by_cases hskip : item.SimpleTrack.Name ∈ existing ∨ item.SimpleTrack.Name = []
    · rw [pass_of_skip w item log existing hs hskip]
      simp only
      rw [pass_of_skip w' item log existing hs hskip]
      exact ⟨hterm, hnodup, fun _ => by rw [hs]; simp, rfl, rfl, rfl⟩
    · have h1 : item.SimpleTrack.Name ∉ existing := fun h => hskip (Or.inl h)
      have h2 : item.SimpleTrack.Name ≠ [] := fun h => hskip (Or.inr h)
      have hbody := not_mem_lineBody item.SimpleTrack.Name (artistNames item.SimpleTrack) h10 ha
      have hnames := namesOnLines_append_line log item.SimpleTrack.Name
        (artistNames item.SimpleTrack) hterm h45 hbody
      have hnot : item.SimpleTrack.Name ∉ namesOnLines log :=
        fun h => h1 (mem_existing_of_namesOnLines log _ existing hs h45 h)
      have hnodup' : (namesOnLines (log ++ formatLine item.SimpleTrack.Name
          (artistNames item.SimpleTrack))).Nodup := by
        rw [hnames]
        exact List.Nodup.append hnodup (List.nodup_singleton _) (by simpa using hnot)
      rw [pass_of_announce w item log existing hs h1 h2]
      simp only
      refine ⟨newlineTerminated_append_formatLine _ _ _, hnodup', ?_⟩
      by_cases hlen : (lineBody item.SimpleTrack.Name (artistNames item.SimpleTrack)).length
          < MaxScanTokenSize
      · obtain ⟨hok', _⟩ := scanFile_append_line log item.SimpleTrack.Name existing
          (artistNames item.SimpleTrack) hterm hs h45 hbody hlen
        rw [pass_of_skip w' item _ _ hok' (Or.inl (List.mem_insert_self _ _))]
        exact ⟨fun _ => by rw [hok']; simp, rfl, rfl, rfl⟩
      · obtain ⟨herr, _⟩ := scanFile_append_long_line log item.SimpleTrack.Name existing
          (artistNames item.SimpleTrack) hterm hs hbody (by omega)
        rw [pass_of_readError w' _ _ herr]
        exact ⟨fun _ => by rw [herr]; simp, rfl, rfl, rfl⟩

/-- C3, amended, at a log with the two names "Anti-Hero" and "Anti-Venom",
which are distinct while line 161 records the key "Ant" for both, and the
track "Song B". -/
theorem at_most_once_of_plain_name_witness :
    NewlineTerminated (utf8 "Anti-Hero - [x]\nAnti-Venom - [y]\n")
    ∧ namesOnLines (utf8 "Anti-Hero - [x]\nAnti-Venom - [y]\n")
        = [utf8 "Anti-Hero", utf8 "Anti-Venom"]
    ∧ (namesOnLines (utf8 "Anti-Hero - [x]\nAnti-Venom - [y]\n")).Nodup
    ∧ scannedKeys (utf8 "Anti-Hero - [x]\nAnti-Venom - [y]\n") = [utf8 "Ant", utf8 "Ant"]
    ∧ 45 ∉ utf8 "Song B" ∧ 10 ∉ utf8 "Song B"
    ∧ (∀ a ∈ [utf8 "Artist2"], 10 ∉ a)
    ∧ (getCurrentlyPlayingPass allRelaysUp (playing (utf8 "Song B") [utf8 "Artist2"] [])
          (utf8 "Anti-Hero - [x]\nAnti-Venom - [y]\n")).file
        = utf8 "Anti-Hero - [x]\nAnti-Venom - [y]\nSong B - [Artist2]\n"
    ∧ (namesOnLines (getCurrentlyPlayingPass allRelaysUp
          (playing (utf8 "Song B") [utf8 "Artist2"] [])
          (utf8 "Anti-Hero - [x]\nAnti-Venom - [y]\n")).file).Nodup
    ∧ (getCurrentlyPlayingPass allRelaysUp (playing (utf8 "Song B") [utf8 "Artist2"] [])
          (getCurrentlyPlayingPass allRelaysUp (playing (utf8 "Song B") [utf8 "Artist2"] [])
            (utf8 "Anti-Hero - [x]\nAnti-Venom - [y]\n")).file).posts = [] :=
  ⟨Or.inr (by decide), by decide, by decide, by decide, by decide, by decide, by decide,
   by decide,
   (at_most_once_of_plain_name allRelaysUp allRelaysUp
      ⟨⟨[⟨utf8 "Artist2"⟩], [], utf8 "Song B"⟩⟩ (utf8 "Anti-Hero - [x]\nAnti-Venom - [y]\n")
      (Or.inr (by decide)) (by decide) (by decide) (by decide) (by decide)).2.1,
   (at_most_once_of_plain_name allRelaysUp allRelaysUp
      ⟨⟨[⟨utf8 "Artist2"⟩], [], utf8 "Song B"⟩⟩ (utf8 "Anti-Hero - [x]\nAnti-Venom - [y]\n")
      (Or.inr (by decide)) (by decide) (by decide) (by decide) (by decide)).2.2.2.2.1⟩

end Nostrplaying
